import Mathlib

/-!
Shallow embedding of `csm.py` (CephScrubManager): eligibility check
(`date_check`), admission control (`state_check` and the implicit
`canAdmit` from the `while state_check() > parallel` loop), the
scheduling loop (`do_scrub`), the status report (`status`) and the
PG/OSD index builder (`sorted_dump`).

Conventions:
- Timestamps are integers (seconds); `strptime` parsing of the
  `last_scrub_stamp` / `last_deep_scrub_stamp` JSON fields is modelled
  by `Option Int`: `none` stands for a missing or malformed field (in
  Python a `KeyError` / `ValueError` raised by `pg[...]`/`strptime`),
  `some t` for a field that parses to time `t`.
- `datetime.timedelta(days = d)` is `d * 86400` seconds.
- Effects of one run (commands issued, sleeps, log lines) are recorded
  as an explicit `Event` trace; `dump()` fetches are modelled by an
  explicit list of snapshots handed to the run, consumed in fetch
  order, since each `state_check()` call re-fetches the cluster state.
- Exceptions propagate as `Except` / dedicated result constructors.
-/

namespace Csm

/-- `pg['stat_sum']` fields used by `status`. -/
structure StatSum where
  num_scrub_errors : Int
  num_deep_scrub_errors : Int
  deriving DecidableEq, Repr

/-- One entry of `pg_stats` in the JSON dump: the fields `csm.py` reads. -/
structure PG where
  pgid : String
  state : String
  last_scrub_stamp : Option Int
  last_deep_scrub_stamp : Option Int
  stat_sum : StatSum
  acting : List Nat
  deriving DecidableEq, Repr

/-- The configuration fields of `cli_parser` that the manager reads
(`ds_interval` default 7, `s_interval` default 3, `parallel` default 8). -/
structure Config where
  ds_interval : Nat := 7
  s_interval : Nat := 3
  parallel : Nat := 8
  deriving DecidableEq, Repr

/-- The two maintenance kinds, i.e. the two values of the `type_`
argument of `do_scrub` ("scrub" / "deep-scrub"). -/
inductive ScrubType where
  | scrub
  | deepScrub
  deriving DecidableEq, Repr

/-- The command verb / dict key the Python code uses for each kind. -/
def ScrubType.verb : ScrubType → String
  | .scrub => "scrub"
  | .deepScrub => "deep-scrub"

/-- The dict returned by `date_check`: keys "deep-scrub" and "scrub". -/
structure DateStatus where
  deepScrub : Bool
  scrub : Bool
  deriving DecidableEq, Repr

/-- `date_status[type_]`. -/
def DateStatus.get : DateStatus → ScrubType → Bool
  | st, .scrub => st.scrub
  | st, .deepScrub => st.deepScrub

/-- A missing (`KeyError`) or malformed (`strptime` `ValueError`)
timestamp field. -/
inductive ParseError where
  | badStamp
  deriving DecidableEq, Repr

/-- `CephScrubManager.date_check`: compares each stamp against
`now - timedelta(days = interval)`; raises if either stamp is missing
or malformed (both stamps are parsed unconditionally, deep-scrub
first). -/
def date_check (config : Config) (now : Int) (pg : PG) :
    Except ParseError DateStatus :=
  let ds_comp : Int := now - (config.ds_interval : Int) * 86400
  let s_comp : Int := now - (config.s_interval : Int) * 86400
  match pg.last_deep_scrub_stamp, pg.last_scrub_stamp with
  | some ds_time, some s_time =>
      .ok { deepScrub := decide (ds_time < ds_comp),
            scrub := decide (s_time < s_comp) }
  | _, _ => .error .badStamp

/-- Both timestamp fields of a PG parse. -/
def hasValidStamps (pg : PG) : Bool :=
  pg.last_scrub_stamp.isSome && pg.last_deep_scrub_stamp.isSome

/-- Eligibility of one PG for one kind, as `do_scrub` reads it
(`date_check(pg)[type_]`); `false` on parse failure, but every user of
this definition restricts to PGs with valid stamps. -/
def isDueB (config : Config) (now : Int) (type_ : ScrubType) (pg : PG) :
    Bool :=
  match date_check config now pg with
  | .ok st => st.get type_
  | .error _ => false

/-- `CephScrubManager.state_check`: count the PGs of a fresh dump whose
`state` is not `active+clean`. -/
def state_check (snapshot : List PG) : Nat :=
  snapshot.foldl
    (fun count pg => if pg.state ≠ "active+clean" then count + 1 else count) 0

/-- The admission predicate implicit in `do_scrub`'s
`while self.state_check() > self.config.parallel` loop: new work is
admitted exactly when the loop condition is false. -/
def canAdmit (snapshot : List PG) (config : Config) : Bool :=
  decide (state_check snapshot ≤ config.parallel)

/-- Observable effects of one run: an admission check against a fresh
dump (`state_check` call, recording whether the while-condition let the
loop exit), the 30-second sleep inside the admission wait loop, a
`ceph pg <type_> <pgid>` command, the `time.sleep(delay)` pacing sleep
after a command, and a `LOG.info` detail line of `status`. -/
inductive Event where
  | admissionPoll (admitted : Bool)
  | pollSleep (seconds : Nat)
  | command (verb : String) (pgid : String)
  | pacingSleep (seconds : Nat)
  | logLine (pgid : String)
  deriving DecidableEq, Repr

/-- The pgids of the commands in a trace, in order. -/
def commandsOf (t : List Event) : List String :=
  t.filterMap fun e =>
    match e with
    | .command _ pgid => some pgid
    | _ => none

/-- The durations of the pacing sleeps in a trace, in order. -/
def pacingsOf (t : List Event) : List Nat :=
  t.filterMap fun e =>
    match e with
    | .pacingSleep s => some s
    | _ => none

/-- The durations of the admission-wait sleeps in a trace, in order. -/
def pollSleepsOf (t : List Event) : List Nat :=
  t.filterMap fun e =>
    match e with
    | .pollSleep s => some s
    | _ => none

/-- Number of admission checks (`state_check` calls of the wait loop)
in a trace. -/
def admissionPollsOf (t : List Event) : Nat :=
  t.countP fun e =>
    match e with
    | .admissionPoll _ => true
    | _ => false

/-- Result of `while self.state_check() > self.config.parallel:`
`time.sleep(30)`: either some fetched snapshot let the loop exit
(`admitted`, with the unconsumed rest of the fetch sequence), or every
provided fetch kept the loop spinning (`exhausted` — in the program
the loop would simply keep fetching; it has no timeout). -/
inductive AdmitResult where
  | admitted (events : List Event) (remaining : List (List PG))
  | exhausted (events : List Event)
  deriving DecidableEq, Repr

/-- The admission wait loop of `do_scrub`, lines 126-128 of `csm.py`:
each iteration fetches a fresh dump (one element of `fetches`),
re-evaluates `state_check() > parallel`, and sleeps 30 seconds when the
cluster is still too unhealthy. -/
def admissionLoop (parallel : Nat) : List (List PG) → AdmitResult
  | [] => .exhausted []
  | snap :: rest =>
      if state_check snap > parallel then
        match admissionLoop parallel rest with
        | .admitted evs rem =>
            .admitted (.admissionPoll false :: .pollSleep 30 :: evs) rem
        | .exhausted evs =>
            .exhausted (.admissionPoll false :: .pollSleep 30 :: evs)
      else
        .admitted [.admissionPoll true] rest

/-- Outcome of one `do_scrub` run: normal completion, a propagated
timestamp parse exception (with the pgid it was raised at), or an
exhausted fetch sequence while blocked in the admission wait loop.
Each carries the trace of events that happened before. -/
inductive RunResult where
  | ok (trace : List Event)
  | parseError (pgid : String) (trace : List Event)
  | blocked (trace : List Event)
  deriving DecidableEq, Repr

/-- The event trace of a run result. -/
def RunResult.trace : RunResult → List Event
  | .ok t => t
  | .parseError _ t => t
  | .blocked t => t

/-- Prefix a run result's trace with earlier events. -/
def RunResult.prepend (evs : List Event) : RunResult → RunResult
  | .ok t => .ok (evs ++ t)
  | .parseError pgid t => .parseError pgid (evs ++ t)
  | .blocked t => .blocked (evs ++ t)

/-- `CephScrubManager.do_scrub`, lines 119-137 of `csm.py`, over the
initially fetched snapshot (first argument) and the sequence of
snapshots returned by the `state_check` re-fetches (second argument):
for each PG of the initial snapshot, skip it when
`not date_check(pg)[type_]`, otherwise wait for admission, issue
`ceph pg <type_> <pgid>` and sleep `delay` seconds. A `date_check`
exception aborts the whole run. -/
def do_scrub (config : Config) (now : Int) (type_ : ScrubType)
    (delay : Nat) : List PG → List (List PG) → RunResult
  | [], _ => .ok []
  | pg :: rest, fetches =>
      match date_check config now pg with
      | .error _ => .parseError pg.pgid []
      | .ok date_status =>
          if date_status.get type_ then
            match admissionLoop config.parallel fetches with
            | .exhausted evs => .blocked evs
            | .admitted evs rem =>
                RunResult.prepend
                  (evs ++ [.command type_.verb pg.pgid, .pacingSleep delay])
                  (do_scrub config now type_ delay rest rem)
          else
            do_scrub config now type_ delay rest fetches

/-- The per-kind pacing delay hard-wired in `main`:
`do_scrub('deep-scrub', 15)` / `do_scrub('scrub', 1)`. -/
def mainDelay : ScrubType → Nat
  | .deepScrub => 15
  | .scrub => 1

/-- One `--scrub` / `--deep-scrub` run as dispatched by `main`. -/
def main_run (config : Config) (now : Int) (type_ : ScrubType)
    (snapshot : List PG) (fetches : List (List PG)) : RunResult :=
  do_scrub config now type_ (mainDelay type_) snapshot fetches

/-- The four counters of `CephScrubManager.status`. -/
structure StatusCounts where
  ds_count : Nat
  dse_count : Nat
  s_count : Nat
  se_count : Nat
  deriving DecidableEq, Repr

/-- The loop of `CephScrubManager.status`, lines 145-167 of `csm.py`,
with the counters and the emitted `LOG.info` lines threaded as
accumulators; a `date_check` exception aborts the whole report,
carrying the pgid it was raised at and the lines logged before. -/
def status_loop (config : Config) (now : Int) (acc : StatusCounts)
    (evs : List Event) :
    List PG → Except (String × List Event) (StatusCounts × List Event)
  | [] => .ok (acc, evs)
  | pg :: rest =>
      match date_check config now pg with
      | .error _ => .error (pg.pgid, evs)
      | .ok date_status =>
          let (s_count, evs) :=
            if date_status.scrub then (acc.s_count + 1, evs ++ [.logLine pg.pgid])
            else (acc.s_count, evs)
          let (ds_count, evs) :=
            if date_status.deepScrub then (acc.ds_count + 1, evs ++ [.logLine pg.pgid])
            else (acc.ds_count, evs)
          let (se_count, evs) :=
            if pg.stat_sum.num_scrub_errors > 0 then
              (acc.se_count + 1, evs ++ [.logLine pg.pgid])
            else (acc.se_count, evs)
          let (dse_count, evs) :=
            if pg.stat_sum.num_deep_scrub_errors > 0 then
              (acc.dse_count + 1, evs ++ [.logLine pg.pgid])
            else (acc.dse_count, evs)
          status_loop config now
            { ds_count := ds_count, dse_count := dse_count,
              s_count := s_count, se_count := se_count } evs rest

/-- `CephScrubManager.status` over an already-fetched snapshot. -/
def status (config : Config) (now : Int) (snapshot : List PG) :
    Except (String × List Event) (StatusCounts × List Event) :=
  status_loop config now ⟨0, 0, 0, 0⟩ [] snapshot

/-- The `LOG.info` lines `status` emits for a list of PGs whose stamps
all parse: one line per counter a PG contributes to, in the loop's
order (scrub, deep-scrub, scrub errors, deep-scrub errors). -/
def statusLogs (config : Config) (now : Int) : List PG → List Event
  | [] => []
  | pg :: rest =>
      (match date_check config now pg with
       | .ok st =>
           (if st.scrub then [.logLine pg.pgid] else []) ++
           (if st.deepScrub then [.logLine pg.pgid] else []) ++
           (if pg.stat_sum.num_scrub_errors > 0 then [.logLine pg.pgid]
            else []) ++
           (if pg.stat_sum.num_deep_scrub_errors > 0 then [.logLine pg.pgid]
            else [])
       | .error _ => []) ++ statusLogs config now rest

/-- A 10-PG snapshot used as a concrete report fixture: PGs 0-2 are
overdue for scrub (stamp one second before the zero-interval
threshold), PGs 2-3 carry a nonzero scrub error count, nothing is
overdue for deep-scrub and there are no deep-scrub errors. -/
def reportFixture : List PG :=
  [⟨"0", "active+clean", some (-1), some 0, ⟨0, 0⟩, []⟩,
   ⟨"1", "active+clean", some (-1), some 0, ⟨0, 0⟩, []⟩,
   ⟨"2", "active+clean", some (-1), some 0, ⟨1, 0⟩, []⟩,
   ⟨"3", "active+clean", some 0, some 0, ⟨1, 0⟩, []⟩,
   ⟨"4", "active+clean", some 0, some 0, ⟨0, 0⟩, []⟩,
   ⟨"5", "active+clean", some 0, some 0, ⟨0, 0⟩, []⟩,
   ⟨"6", "active+clean", some 0, some 0, ⟨0, 0⟩, []⟩,
   ⟨"7", "active+clean", some 0, some 0, ⟨0, 0⟩, []⟩,
   ⟨"8", "active+clean", some 0, some 0, ⟨0, 0⟩, []⟩,
   ⟨"9", "active+clean", some 0, some 0, ⟨0, 0⟩, []⟩]

/-- The trace of a `status` call, whether it completed or raised. -/
def statusEventsOf
    (r : Except (String × List Event) (StatusCounts × List Event)) :
    List Event :=
  match r with
  | .ok (_, evs) => evs
  | .error (_, evs) => evs

/-- Heap model for `CephScrubManager.sorted_dump`, lines 102-117 of
`csm.py`. Python mutates list objects in place and stores references
to them in two dicts, so the state carries an explicit store of list
cells: `osds` maps an OSD id to the reference of its (unique, mutable)
pgid list, `store` gives each reference's current contents, and `pgs`
maps a pgid to its inner dict, which maps OSD ids to references
(the value of `osds[osd]` at assignment time). -/
structure SDState where
  nextRef : Nat
  store : Nat → List String
  osds : Nat → Option Nat
  pgs : String → Option (Nat → Option Nat)

/-- `pgs[pg['pgid']].update({osd: osds[osd]})`: store into the inner
dict of `pgid` the current reference held by `osds[osd]` (both entries
exist whenever `sorted_dump` reaches this line). -/
def addPgRef (s : SDState) (pgid : String) (osd : Nat) : SDState :=
  match s.pgs pgid, s.osds osd with
  | some inner, some r =>
      { s with pgs := Function.update s.pgs pgid (some (Function.update inner osd (some r))) }
  | _, _ => s

/-- One iteration of `for osd in pg['acting']`: append `pgid` to the
list `osds[osd]` (allocating a fresh one-element list on `KeyError`),
then record the reference in `pgs[pgid]`. -/
def visitOsd (pgid : String) (s : SDState) (osd : Nat) : SDState :=
  let s1 :=
    match s.osds osd with
    | some r => { s with store := Function.update s.store r (s.store r ++ [pgid]) }
    | none =>
        { s with
          nextRef := s.nextRef + 1,
          store := Function.update s.store s.nextRef [pgid],
          osds := Function.update s.osds osd (some s.nextRef) }
  addPgRef s1 pgid osd

/-- One iteration of `for pg in raw['pg_stats']`: bind `pgs[pgid]` to a
fresh empty dict, then process the acting set. -/
def visitPg (s : SDState) (pg : PG) : SDState :=
  pg.acting.foldl (visitOsd pg.pgid)
    { s with pgs := Function.update s.pgs pg.pgid (some fun _ => none) }

/-- `CephScrubManager.sorted_dump` over an already-fetched snapshot:
the final heap state after processing every PG. -/
def sorted_dump (snapshot : List PG) : SDState :=
  snapshot.foldl visitPg
    { nextRef := 0, store := fun _ => [], osds := fun _ => none,
      pgs := fun _ => none }

/-- What the claim says `osds[o]` should be: the pg ids, in snapshot
order, of exactly the PGs whose acting sequence contains `o`. (This
definition follows the claim's words, to be compared against
`sorted_dump`.) -/
def claimedOsdList (snapshot : List PG) (o : Nat) : List String :=
  (snapshot.filter fun pg => decide (o ∈ pg.acting)).map PG.pgid

/-- The trace of one `do_scrub` run in which every admission check
succeeds at the first fetched snapshot: due PGs in snapshot order, one
admission check, one command and one pacing sleep each; skipped PGs
contribute nothing. -/
def expectedTrace (config : Config) (now : Int) (type_ : ScrubType)
    (delay : Nat) : List PG → List Event
  | [] => []
  | pg :: rest =>
      if isDueB config now type_ pg then
        .admissionPoll true :: .command type_.verb pg.pgid ::
          .pacingSleep delay :: expectedTrace config now type_ delay rest
      else
        expectedTrace config now type_ delay rest

/-- The trace of `n` consecutive failed admission checks: each one is a
`state_check` against a fresh dump followed by the 30-second sleep. -/
def failTrace : Nat → List Event
  | 0 => []
  | n + 1 => .admissionPoll false :: .pollSleep 30 :: failTrace n

/-- Scans a trace remembering whether the previous event was a
successful admission check; a command is accepted only right after
one. -/
def cmdsAdmittedFrom : Bool → List Event → Bool
  | _, [] => true
  | prevOk, .command _ _ :: rest => prevOk && cmdsAdmittedFrom false rest
  | _, .admissionPoll true :: rest => cmdsAdmittedFrom true rest
  | _, _ :: rest => cmdsAdmittedFrom false rest

/-- Every command in the trace is immediately preceded by a successful
admission check (and no command opens the trace). -/
def cmdsAdmitted (t : List Event) : Bool :=
  cmdsAdmittedFrom false t

/-- Heap sanity of a `sorted_dump` state: every reference held by
`osds` was allocated, and distinct OSD ids never share a list
reference. -/
def HeapInv (s : SDState) : Prop :=
  (∀ o r, s.osds o = some r → r < s.nextRef) ∧
  (∀ o1 o2 r, s.osds o1 = some r → s.osds o2 = some r → o1 = o2)

/-- Invariant of the `sorted_dump` fold after processing the prefix
`done` of the snapshot: the heap is sane, every allocated OSD list
holds exactly the pg ids (in order, one per occurrence) of the
processed PGs whose acting set contains the OSD, unallocated OSDs were
never seen, and each processed PG's inner dict maps exactly its acting
members to the references `osds` holds. -/
def OuterInv (done : List PG) (s : SDState) : Prop :=
  HeapInv s ∧
  (∀ o r, s.osds o = some r → s.store r = claimedOsdList done o) ∧
  (∀ o, s.osds o = none → claimedOsdList done o = []) ∧
  (∀ pg ∈ done, ∃ inner, s.pgs pg.pgid = some inner ∧
    ∀ o, inner o = (if o ∈ pg.acting then s.osds o else none))

end Csm

namespace Csm

theorem state_check_eq_countP (snapshot : List PG) :
    state_check snapshot =
      snapshot.countP (fun pg => decide (pg.state ≠ "active+clean")) := by
  have h : ∀ (l : List PG) (n : Nat),
      l.foldl
        (fun count pg => if pg.state ≠ "active+clean" then count + 1 else count)
        n = n + l.countP (fun pg => decide (pg.state ≠ "active+clean")) := by
    intro l
    induction l with
    | nil => intro n; rfl
    | cons pg rest ih =>
        intro n
        rw [List.foldl_cons, ih, List.countP_cons]
        by_cases hpg : pg.state = "active+clean"
        · simp [hpg]
        · simp [hpg]
          omega
  have h0 := h snapshot 0
  simpa [state_check] using h0

end Csm

namespace Csm

theorem date_check_ok_of_valid (config : Config) (now : Int) (pg : PG)
    (h : hasValidStamps pg = true) :
    date_check config now pg =
      .ok ⟨isDueB config now .deepScrub pg, isDueB config now .scrub pg⟩ := by
  unfold hasValidStamps at h
  obtain ⟨s_time, hs⟩ := Option.isSome_iff_exists.mp (by
    have := Bool.and_elim_left h; exact this)
  obtain ⟨ds_time, hds⟩ := Option.isSome_iff_exists.mp (by
    have := Bool.and_elim_right h; exact this)
  simp [date_check, isDueB, hs, hds, DateStatus.get]

theorem date_check_error_of_invalid (config : Config) (now : Int) (pg : PG)
    (h : hasValidStamps pg = false) :
    date_check config now pg = .error .badStamp := by
  unfold hasValidStamps at h
  unfold date_check
  rcases hs : pg.last_scrub_stamp with _ | s_time <;>
    rcases hds : pg.last_deep_scrub_stamp with _ | ds_time <;>
      simp [hs, hds] at h ⊢

theorem isDueB_true_elim (config : Config) (now : Int) (type_ : ScrubType)
    (pg : PG) (h : isDueB config now type_ pg = true) :
    ∃ st, date_check config now pg = .ok st ∧ st.get type_ = true := by
  unfold isDueB at h
  rcases hdc : date_check config now pg with e | st <;> rw [hdc] at h
  · exact absurd h (by simp)
  · exact ⟨st, rfl, h⟩

/-- Claim C1: `date_check` marks a PG due for a kind exactly when the
recorded stamp of that kind is strictly earlier than `now` minus the
configured interval in days; a stamp equal to `now` is never due, and a
stamp `(interval + 1)` days before `now` always is. -/
theorem C1_eligibility (config : Config) (now s_time ds_time : Int) (pg : PG)
    (hs : pg.last_scrub_stamp = some s_time)
    (hds : pg.last_deep_scrub_stamp = some ds_time)
    (st : DateStatus) (hok : date_check config now pg = .ok st) :
    (st.get .scrub = true ↔ s_time < now - (config.s_interval : Int) * 86400) ∧
    (st.get .deepScrub = true ↔
      ds_time < now - (config.ds_interval : Int) * 86400) ∧
    (s_time = now → st.get .scrub = false) ∧
    (ds_time = now → st.get .deepScrub = false) ∧
    (s_time = now - ((config.s_interval : Int) + 1) * 86400 →
      st.get .scrub = true) ∧
    (ds_time = now - ((config.ds_interval : Int) + 1) * 86400 →
      st.get .deepScrub = true) := by
  unfold date_check at hok
  rw [hs, hds] at hok
  simp only [Except.ok.injEq] at hok
  subst hok
  refine ⟨by simp [DateStatus.get], by simp [DateStatus.get], ?_, ?_, ?_, ?_⟩
  · intro h; subst h; simp [DateStatus.get]
  · intro h; subst h; simp [DateStatus.get]
  · intro h; subst h; simp [DateStatus.get]
  · intro h; subst h; simp [DateStatus.get]

/-- Witness for C1 at `config = ⟨7, 3, 8⟩`, `now = 0`,
`s_time = -300000`, `ds_time = -700000`. -/
theorem C1_eligibility_witness :
    (DateStatus.get ⟨true, true⟩ .scrub = true ↔
      (-300000 : Int) < 0 - ((3 : Nat) : Int) * 86400) ∧
    (DateStatus.get ⟨true, true⟩ .deepScrub = true ↔
      (-700000 : Int) < 0 - ((7 : Nat) : Int) * 86400) ∧
    ((-300000 : Int) = 0 → DateStatus.get ⟨true, true⟩ .scrub = false) ∧
    ((-700000 : Int) = 0 → DateStatus.get ⟨true, true⟩ .deepScrub = false) ∧
    ((-300000 : Int) = 0 - (((3 : Nat) : Int) + 1) * 86400 →
      DateStatus.get ⟨true, true⟩ .scrub = true) ∧
    ((-700000 : Int) = 0 - (((7 : Nat) : Int) + 1) * 86400 →
      DateStatus.get ⟨true, true⟩ .deepScrub = true) :=
  C1_eligibility ⟨7, 3, 8⟩ 0 (-300000) (-700000)
    ⟨"1.0", "active+clean", some (-300000), some (-700000), ⟨0, 0⟩, []⟩
    rfl rfl ⟨true, true⟩ rfl

/-- Claim C2: `state_check` counts exactly the PGs whose state is not
`active+clean` (0 on an all-clean snapshot), and admission holds iff
that count is at most `config.parallel`, including at the boundary and
failing one over it. -/
theorem C2_admission (snapshot : List PG) (config : Config) :
    state_check snapshot =
      (snapshot.countP fun pg => decide (pg.state ≠ "active+clean")) ∧
    ((∀ pg ∈ snapshot, pg.state = "active+clean") →
      state_check snapshot = 0) ∧
    (canAdmit snapshot config = true ↔
      state_check snapshot ≤ config.parallel) ∧
    (state_check snapshot = config.parallel →
      canAdmit snapshot config = true) ∧
    (state_check snapshot = config.parallel + 1 →
      canAdmit snapshot config = false) := by
  refine ⟨state_check_eq_countP snapshot, ?_, by simp [canAdmit], ?_, ?_⟩
  · intro hclean
    rw [state_check_eq_countP]
    rw [List.countP_eq_zero]
    intro pg hpg
    simp [hclean pg hpg]
  · intro h; simp [canAdmit, h]
  · intro h; simp [canAdmit, h]


theorem do_scrub_cons_err (config : Config) (now : Int) (type_ : ScrubType)
    (delay : Nat) (pg : PG) (rest : List PG) (fetches : List (List PG))
    (h : date_check config now pg = .error .badStamp) :
    do_scrub config now type_ delay (pg :: rest) fetches =
      .parseError pg.pgid [] := by
  unfold do_scrub
  rw [h]

theorem do_scrub_cons_skip (config : Config) (now : Int) (type_ : ScrubType)
    (delay : Nat) (pg : PG) (rest : List PG) (fetches : List (List PG))
    (st : DateStatus) (h : date_check config now pg = .ok st)
    (hskip : st.get type_ = false) :
    do_scrub config now type_ delay (pg :: rest) fetches =
      do_scrub config now type_ delay rest fetches := by
  conv_lhs => unfold do_scrub
  rw [h]
  simp [hskip]

theorem do_scrub_cons_due_admitted (config : Config) (now : Int)
    (type_ : ScrubType) (delay : Nat) (pg : PG) (rest : List PG)
    (fetches : List (List PG)) (st : DateStatus)
    (h : date_check config now pg = .ok st) (hdue : st.get type_ = true)
    (evs : List Event) (rem : List (List PG))
    (ha : admissionLoop config.parallel fetches = .admitted evs rem) :
    do_scrub config now type_ delay (pg :: rest) fetches =
      RunResult.prepend
        (evs ++ [.command type_.verb pg.pgid, .pacingSleep delay])
        (do_scrub config now type_ delay rest rem) := by
  conv_lhs => unfold do_scrub
  rw [h]
  simp [hdue, ha]

theorem do_scrub_cons_due_exhausted (config : Config) (now : Int)
    (type_ : ScrubType) (delay : Nat) (pg : PG) (rest : List PG)
    (fetches : List (List PG)) (st : DateStatus)
    (h : date_check config now pg = .ok st) (hdue : st.get type_ = true)
    (evs : List Event)
    (ha : admissionLoop config.parallel fetches = .exhausted evs) :
    do_scrub config now type_ delay (pg :: rest) fetches = .blocked evs := by
  unfold do_scrub
  rw [h]
  simp [hdue, ha]

theorem get_mk_isDueB (config : Config) (now : Int) (type_ : ScrubType)
    (pg : PG) :
    (DateStatus.mk (isDueB config now .deepScrub pg)
      (isDueB config now .scrub pg)).get type_ =
      isDueB config now type_ pg := by
  cases type_ <;> rfl

theorem admissionLoop_cons_ok (parallel : Nat) (snap : List PG)
    (rest : List (List PG)) (h : state_check snap ≤ parallel) :
    admissionLoop parallel (snap :: rest) =
      .admitted [.admissionPoll true] rest := by
  unfold admissionLoop
  rw [if_neg (by omega)]

theorem admissionLoop_all_fail (parallel : Nat) :
    ∀ fetches : List (List PG),
      (∀ s ∈ fetches, state_check s > parallel) →
      admissionLoop parallel fetches =
        .exhausted (failTrace fetches.length) := by
  intro fetches
  induction fetches with
  | nil => intro _; rfl
  | cons snap rest ih =>
      intro h
      unfold admissionLoop
      rw [if_pos (h snap (by simp))]
      rw [ih fun s hs => h s (by simp [hs])]
      simp [failTrace]



theorem commandsOf_nil : commandsOf [] = [] := rfl

theorem commandsOf_cons_poll (b : Bool) (t : List Event) :
    commandsOf (.admissionPoll b :: t) = commandsOf t := rfl

theorem commandsOf_cons_sleep (s : Nat) (t : List Event) :
    commandsOf (.pollSleep s :: t) = commandsOf t := rfl

theorem commandsOf_cons_cmd (v p : String) (t : List Event) :
    commandsOf (.command v p :: t) = p :: commandsOf t := rfl

theorem commandsOf_cons_pacing (s : Nat) (t : List Event) :
    commandsOf (.pacingSleep s :: t) = commandsOf t := rfl

theorem commandsOf_cons_log (p : String) (t : List Event) :
    commandsOf (.logLine p :: t) = commandsOf t := rfl

theorem commandsOf_append (t1 t2 : List Event) :
    commandsOf (t1 ++ t2) = commandsOf t1 ++ commandsOf t2 := by
  simp [commandsOf, List.filterMap_append]

theorem pacingsOf_cons_poll (b : Bool) (t : List Event) :
    pacingsOf (.admissionPoll b :: t) = pacingsOf t := rfl

theorem pacingsOf_cons_sleep (s : Nat) (t : List Event) :
    pacingsOf (.pollSleep s :: t) = pacingsOf t := rfl

theorem pacingsOf_cons_cmd (v p : String) (t : List Event) :
    pacingsOf (.command v p :: t) = pacingsOf t := rfl

theorem pacingsOf_cons_pacing (s : Nat) (t : List Event) :
    pacingsOf (.pacingSleep s :: t) = s :: pacingsOf t := rfl

theorem pollSleepsOf_cons_poll (b : Bool) (t : List Event) :
    pollSleepsOf (.admissionPoll b :: t) = pollSleepsOf t := rfl

theorem pollSleepsOf_cons_sleep (s : Nat) (t : List Event) :
    pollSleepsOf (.pollSleep s :: t) = s :: pollSleepsOf t := rfl

theorem pollSleepsOf_cons_cmd (v p : String) (t : List Event) :
    pollSleepsOf (.command v p :: t) = pollSleepsOf t := rfl

theorem pollSleepsOf_cons_pacing (s : Nat) (t : List Event) :
    pollSleepsOf (.pacingSleep s :: t) = pollSleepsOf t := rfl

theorem admissionPollsOf_nil : admissionPollsOf [] = 0 := rfl

theorem admissionPollsOf_cons_poll (b : Bool) (t : List Event) :
    admissionPollsOf (.admissionPoll b :: t) = admissionPollsOf t + 1 := by
  simp [admissionPollsOf, List.countP_cons]

theorem admissionPollsOf_cons_sleep (s : Nat) (t : List Event) :
    admissionPollsOf (.pollSleep s :: t) = admissionPollsOf t := by
  simp [admissionPollsOf, List.countP_cons]

theorem admissionPollsOf_cons_cmd (v p : String) (t : List Event) :
    admissionPollsOf (.command v p :: t) = admissionPollsOf t := by
  simp [admissionPollsOf, List.countP_cons]

theorem admissionPollsOf_cons_pacing (s : Nat) (t : List Event) :
    admissionPollsOf (.pacingSleep s :: t) = admissionPollsOf t := by
  simp [admissionPollsOf, List.countP_cons]

theorem expectedTrace_commands (config : Config) (now : Int)
    (type_ : ScrubType) (delay : Nat) (pgs : List PG) :
    commandsOf (expectedTrace config now type_ delay pgs) =
      (pgs.filter (isDueB config now type_)).map PG.pgid := by
  induction pgs with
  | nil => rfl
  | cons pg rest ih =>
      cases hdue : isDueB config now type_ pg <;>
        simp [expectedTrace, hdue, commandsOf_cons_poll, commandsOf_cons_cmd,
          commandsOf_cons_pacing, List.filter_cons, ih]

theorem expectedTrace_pacings (config : Config) (now : Int)
    (type_ : ScrubType) (delay : Nat) (pgs : List PG) :
    pacingsOf (expectedTrace config now type_ delay pgs) =
      List.replicate (pgs.countP (isDueB config now type_)) delay := by
  induction pgs with
  | nil => rfl
  | cons pg rest ih =>
      cases hdue : isDueB config now type_ pg <;>
        simp [expectedTrace, hdue, pacingsOf_cons_poll, pacingsOf_cons_cmd,
          pacingsOf_cons_pacing, List.countP_cons, ih, List.replicate_succ]

theorem expectedTrace_pollSleeps (config : Config) (now : Int)
    (type_ : ScrubType) (delay : Nat) (pgs : List PG) :
    pollSleepsOf (expectedTrace config now type_ delay pgs) = [] := by
  induction pgs with
  | nil => rfl
  | cons pg rest ih =>
      cases hdue : isDueB config now type_ pg <;>
        simp [expectedTrace, hdue, pollSleepsOf_cons_poll,
          pollSleepsOf_cons_cmd, pollSleepsOf_cons_pacing, ih]

theorem failTrace_commands (n : Nat) : commandsOf (failTrace n) = [] := by
  induction n with
  | zero => rfl
  | succ n ih =>
      simp [failTrace, commandsOf_cons_poll, commandsOf_cons_sleep, ih]

theorem failTrace_polls (n : Nat) : admissionPollsOf (failTrace n) = n := by
  induction n with
  | zero => rfl
  | succ n ih =>
      simp [failTrace, admissionPollsOf_cons_poll,
        admissionPollsOf_cons_sleep, ih]

theorem failTrace_pollSleeps (n : Nat) :
    pollSleepsOf (failTrace n) = List.replicate n 30 := by
  induction n with
  | zero => rfl
  | succ n ih =>
      simp [failTrace, pollSleepsOf_cons_poll, pollSleepsOf_cons_sleep, ih,
        List.replicate_succ]

theorem do_scrub_admissible (config : Config) (now : Int) (type_ : ScrubType)
    (delay : Nat) :
    ∀ (pgs : List PG) (fetches : List (List PG)),
      (∀ pg ∈ pgs, hasValidStamps pg = true) →
      (∀ s ∈ fetches, state_check s ≤ config.parallel) →
      pgs.countP (isDueB config now type_) ≤ fetches.length →
      do_scrub config now type_ delay pgs fetches =
        .ok (expectedTrace config now type_ delay pgs) := by
  intro pgs
  induction pgs with
  | nil => intro fetches _ _ _; rfl
  | cons pg rest ih =>
      intro fetches hv hadm hlen
      have hdc := date_check_ok_of_valid config now pg (hv pg (by simp))
      rw [List.countP_cons] at hlen
      cases hdue : isDueB config now type_ pg
      · rw [do_scrub_cons_skip config now type_ delay pg rest fetches _ hdc
          (by rw [get_mk_isDueB, hdue])]
        rw [ih fetches (fun q hq => hv q (by simp [hq])) hadm
          (by rw [hdue] at hlen; simpa using hlen)]
        simp [expectedTrace, hdue]
      · rw [hdue] at hlen
        simp only [if_true] at hlen
        cases fetches with
        | nil => exact absurd hlen (by simp)
        | cons f fs =>
            rw [do_scrub_cons_due_admitted config now type_ delay pg rest
              (f :: fs) _ hdc (by rw [get_mk_isDueB, hdue]) _ fs
              (admissionLoop_cons_ok config.parallel f fs (hadm f (by simp)))]
            rw [ih fs (fun q hq => hv q (by simp [hq]))
              (fun s hs => hadm s (by simp [hs])) (by simp at hlen; omega)]
            simp [RunResult.prepend, expectedTrace, hdue]

theorem do_scrub_parse_abort (config : Config) (now : Int) (type_ : ScrubType)
    (delay : Nat) (bad : PG) (suf : List PG)
    (hbad : hasValidStamps bad = false) :
    ∀ (pre : List PG) (fetches : List (List PG)),
      (∀ pg ∈ pre, hasValidStamps pg = true) →
      (∀ s ∈ fetches, state_check s ≤ config.parallel) →
      pre.countP (isDueB config now type_) ≤ fetches.length →
      do_scrub config now type_ delay (pre ++ bad :: suf) fetches =
        .parseError bad.pgid (expectedTrace config now type_ delay pre) := by
  intro pre
  induction pre with
  | nil =>
      intro fetches _ _ _
      exact do_scrub_cons_err config now type_ delay bad suf fetches
        (date_check_error_of_invalid config now bad hbad)
  | cons pg rest ih =>
      intro fetches hv hadm hlen
      have hdc := date_check_ok_of_valid config now pg (hv pg (by simp))
      rw [List.countP_cons] at hlen
      cases hdue : isDueB config now type_ pg
      · rw [List.cons_append]
        rw [do_scrub_cons_skip config now type_ delay pg (rest ++ bad :: suf)
          fetches _ hdc (by rw [get_mk_isDueB, hdue])]
        rw [ih fetches (fun q hq => hv q (by simp [hq])) hadm
          (by rw [hdue] at hlen; simpa using hlen)]
        simp [expectedTrace, hdue]
      · rw [hdue] at hlen
        simp only [if_true] at hlen
        cases fetches with
        | nil => exact absurd hlen (by simp)
        | cons f fs =>
            rw [List.cons_append]
            rw [do_scrub_cons_due_admitted config now type_ delay pg
              (rest ++ bad :: suf) (f :: fs) _ hdc
              (by rw [get_mk_isDueB, hdue]) _ fs
              (admissionLoop_cons_ok config.parallel f fs (hadm f (by simp)))]
            rw [ih fs (fun q hq => hv q (by simp [hq]))
              (fun s hs => hadm s (by simp [hs])) (by simp at hlen; omega)]
            simp [RunResult.prepend, expectedTrace, hdue]


theorem trace_prepend (evs : List Event) (r : RunResult) :
    (RunResult.prepend evs r).trace = evs ++ r.trace := by
  cases r <;> rfl

theorem cmdsAdmittedFrom_nil (b : Bool) : cmdsAdmittedFrom b [] = true := rfl

theorem cmdsAdmittedFrom_cmd (b : Bool) (v p : String) (t : List Event) :
    cmdsAdmittedFrom b (.command v p :: t) =
      (b && cmdsAdmittedFrom false t) := rfl

theorem cmdsAdmittedFrom_pollTrue (b : Bool) (t : List Event) :
    cmdsAdmittedFrom b (.admissionPoll true :: t) =
      cmdsAdmittedFrom true t := rfl

theorem cmdsAdmittedFrom_pollFalse (b : Bool) (t : List Event) :
    cmdsAdmittedFrom b (.admissionPoll false :: t) =
      cmdsAdmittedFrom false t := rfl

theorem cmdsAdmittedFrom_sleep (b : Bool) (s : Nat) (t : List Event) :
    cmdsAdmittedFrom b (.pollSleep s :: t) = cmdsAdmittedFrom false t := rfl

theorem cmdsAdmittedFrom_pacing (b : Bool) (s : Nat) (t : List Event) :
    cmdsAdmittedFrom b (.pacingSleep s :: t) = cmdsAdmittedFrom false t := rfl

theorem admissionLoop_cons_fail (parallel : Nat) (snap : List PG)
    (rest : List (List PG)) (h : state_check snap > parallel) :
    admissionLoop parallel (snap :: rest) =
      match admissionLoop parallel rest with
      | .admitted evs rem =>
          .admitted (.admissionPoll false :: .pollSleep 30 :: evs) rem
      | .exhausted evs =>
          .exhausted (.admissionPoll false :: .pollSleep 30 :: evs) := by
  conv_lhs => unfold admissionLoop
  rw [if_pos h]

theorem admissionLoop_admitted_cmds (parallel : Nat) :
    ∀ (fetches : List (List PG)) (evs : List Event) (rem : List (List PG)),
      admissionLoop parallel fetches = .admitted evs rem →
      ∀ (b : Bool) (ys : List Event),
        cmdsAdmittedFrom b (evs ++ ys) = cmdsAdmittedFrom true ys := by
  intro fetches
  induction fetches with
  | nil => intro evs rem h; exact absurd h (by simp [admissionLoop])
  | cons snap rest ih =>
      intro evs rem h b ys
      by_cases hc : state_check snap > parallel
      · rw [admissionLoop_cons_fail parallel snap rest hc] at h
        cases ha : admissionLoop parallel rest with
        | admitted evs0 rem0 =>
            rw [ha] at h
            simp only [AdmitResult.admitted.injEq] at h
            obtain ⟨he, hr⟩ := h
            subst he
            subst hr
            rw [List.cons_append, List.cons_append, cmdsAdmittedFrom_pollFalse,
              cmdsAdmittedFrom_sleep]
            exact ih evs0 _ ha false ys
        | exhausted evs0 =>
            rw [ha] at h
            exact absurd h (by simp)
      · rw [admissionLoop_cons_ok parallel snap rest (by omega)] at h
        simp only [AdmitResult.admitted.injEq] at h
        obtain ⟨he, hr⟩ := h
        subst he
        rw [List.cons_append, cmdsAdmittedFrom_pollTrue]
        simp

theorem admissionLoop_exhausted_cmds (parallel : Nat) :
    ∀ (fetches : List (List PG)) (evs : List Event),
      admissionLoop parallel fetches = .exhausted evs →
      ∀ b : Bool, cmdsAdmittedFrom b evs = true := by
  intro fetches
  induction fetches with
  | nil =>
      intro evs h b
      simp only [admissionLoop, AdmitResult.exhausted.injEq] at h
      subst h
      rfl
  | cons snap rest ih =>
      intro evs h b
      by_cases hc : state_check snap > parallel
      · rw [admissionLoop_cons_fail parallel snap rest hc] at h
        cases ha : admissionLoop parallel rest with
        | admitted evs0 rem0 => rw [ha] at h; exact absurd h (by simp)
        | exhausted evs0 =>
            rw [ha] at h
            simp only [AdmitResult.exhausted.injEq] at h
            subst h
            rw [cmdsAdmittedFrom_pollFalse, cmdsAdmittedFrom_sleep]
            exact ih evs0 ha false
      · rw [admissionLoop_cons_ok parallel snap rest (by omega)] at h
        exact absurd h (by simp)

theorem do_scrub_cmdsAdmitted (config : Config) (now : Int)
    (type_ : ScrubType) (delay : Nat) :
    ∀ (pgs : List PG) (fetches : List (List PG)) (b : Bool),
      cmdsAdmittedFrom b
        (do_scrub config now type_ delay pgs fetches).trace = true := by
  intro pgs
  induction pgs with
  | nil => intro fetches b; rfl
  | cons pg rest ih =>
      intro fetches b
      rcases hdc : date_check config now pg with e | st
      · cases e
        rw [do_scrub_cons_err config now type_ delay pg rest fetches hdc]
        rfl
      · cases hget : st.get type_
        · rw [do_scrub_cons_skip config now type_ delay pg rest fetches st
            hdc hget]
          exact ih fetches b
        · cases ha : admissionLoop config.parallel fetches with
          | exhausted evs =>
              rw [do_scrub_cons_due_exhausted config now type_ delay pg rest
                fetches st hdc hget evs ha]
              exact admissionLoop_exhausted_cmds config.parallel fetches evs
                ha b
          | admitted evs rem =>
              rw [do_scrub_cons_due_admitted config now type_ delay pg rest
                fetches st hdc hget evs rem ha]
              rw [trace_prepend, List.append_assoc]
              rw [admissionLoop_admitted_cmds config.parallel fetches evs rem
                ha b _]
              rw [List.cons_append, List.cons_append, List.nil_append,
                cmdsAdmittedFrom_cmd, cmdsAdmittedFrom_pacing]
              simp only [Bool.true_and]
              exact ih rem false


/-- Claim C3: a command for a due PG is issued only right after an
admission check succeeds on a freshly fetched snapshot; while admission
fails the loop sleeps 30 seconds per failed check and re-fetches with
no timeout (never issuing a command while every fetch fails), and with
a fetch sequence failing twice then passing, exactly three admission
checks happen before the command. -/
theorem C3_admission_wait (config : Config) (now : Int) (type_ : ScrubType)
    (delay : Nat) (pg : PG) (hdue : isDueB config now type_ pg = true)
    (b1 b2 g : List PG)
    (h1 : state_check b1 > config.parallel)
    (h2 : state_check b2 > config.parallel)
    (h3 : state_check g ≤ config.parallel) :
    (do_scrub config now type_ delay [pg] [b1, b2, g] =
      .ok [.admissionPoll false, .pollSleep 30, .admissionPoll false,
        .pollSleep 30, .admissionPoll true, .command type_.verb pg.pgid,
        .pacingSleep delay] ∧
     admissionPollsOf [.admissionPoll false, .pollSleep 30,
        .admissionPoll false, .pollSleep 30, .admissionPoll true] = 3 ∧
     pollSleepsOf [.admissionPoll false, .pollSleep 30,
        .admissionPoll false, .pollSleep 30, .admissionPoll true] =
       [30, 30]) ∧
    (∀ (pgs : List PG) (fetches : List (List PG)),
      cmdsAdmitted (do_scrub config now type_ delay pgs fetches).trace =
        true) ∧
    (∀ fetches : List (List PG),
      (∀ s ∈ fetches, state_check s > config.parallel) →
      do_scrub config now type_ delay [pg] fetches =
        .blocked (failTrace fetches.length) ∧
      commandsOf (failTrace fetches.length) = [] ∧
      admissionPollsOf (failTrace fetches.length) = fetches.length ∧
      pollSleepsOf (failTrace fetches.length) =
        List.replicate fetches.length 30) := by
  obtain ⟨st, hdc, hget⟩ := isDueB_true_elim config now type_ pg hdue
  have ha : admissionLoop config.parallel [b1, b2, g] =
      .admitted [.admissionPoll false, .pollSleep 30, .admissionPoll false,
        .pollSleep 30, .admissionPoll true] [] := by
    rw [admissionLoop_cons_fail config.parallel b1 [b2, g] h1,
      admissionLoop_cons_fail config.parallel b2 [g] h2,
      admissionLoop_cons_ok config.parallel g [] h3]
  refine ⟨⟨?_, by rfl, by rfl⟩, ?_, ?_⟩
  · rw [do_scrub_cons_due_admitted config now type_ delay pg [] [b1, b2, g]
      st hdc hget _ [] ha]
    rfl
  · intro pgs fetches
    exact do_scrub_cmdsAdmitted config now type_ delay pgs fetches false
  · intro fetches hfail
    have hex := admissionLoop_all_fail config.parallel fetches hfail
    exact ⟨do_scrub_cons_due_exhausted config now type_ delay pg [] fetches
        st hdc hget _ hex,
      failTrace_commands fetches.length, failTrace_polls fetches.length,
      failTrace_pollSleeps fetches.length⟩

/-- Witness for C3 at `config = ⟨0, 0, 0⟩`, `now = 0`, kind scrub,
`delay = 1`, a due PG, two unhealthy fetches then a healthy one. -/
theorem C3_admission_wait_witness :
    (do_scrub ⟨0, 0, 0⟩ 0 .scrub 1
        [⟨"1.0", "active+clean", some (-1), some (-1), ⟨0, 0⟩, []⟩]
        [[⟨"2.0", "degraded", some 0, some 0, ⟨0, 0⟩, []⟩],
         [⟨"2.0", "degraded", some 0, some 0, ⟨0, 0⟩, []⟩], []] =
      .ok [.admissionPoll false, .pollSleep 30, .admissionPoll false,
        .pollSleep 30, .admissionPoll true,
        .command (ScrubType.verb .scrub)
          (PG.pgid ⟨"1.0", "active+clean", some (-1), some (-1), ⟨0, 0⟩, []⟩),
        .pacingSleep 1] ∧
     admissionPollsOf [.admissionPoll false, .pollSleep 30,
        .admissionPoll false, .pollSleep 30, .admissionPoll true] = 3 ∧
     pollSleepsOf [.admissionPoll false, .pollSleep 30,
        .admissionPoll false, .pollSleep 30, .admissionPoll true] =
       [30, 30]) ∧
    (∀ (pgs : List PG) (fetches : List (List PG)),
      cmdsAdmitted (do_scrub ⟨0, 0, 0⟩ 0 .scrub 1 pgs fetches).trace =
        true) ∧
    (∀ fetches : List (List PG),
      (∀ s ∈ fetches, state_check s > Config.parallel ⟨0, 0, 0⟩) →
      do_scrub ⟨0, 0, 0⟩ 0 .scrub 1
          [⟨"1.0", "active+clean", some (-1), some (-1), ⟨0, 0⟩, []⟩]
          fetches =
        .blocked (failTrace fetches.length) ∧
      commandsOf (failTrace fetches.length) = [] ∧
      admissionPollsOf (failTrace fetches.length) = fetches.length ∧
      pollSleepsOf (failTrace fetches.length) =
        List.replicate fetches.length 30) :=
  C3_admission_wait ⟨0, 0, 0⟩ 0 .scrub 1
    ⟨"1.0", "active+clean", some (-1), some (-1), ⟨0, 0⟩, []⟩ (by decide)
    [⟨"2.0", "degraded", some 0, some 0, ⟨0, 0⟩, []⟩]
    [⟨"2.0", "degraded", some 0, some 0, ⟨0, 0⟩, []⟩] []
    (by decide) (by decide) (by decide)


/-- Claim C4: one run over the initial snapshot (admission succeeding
on every fetch) issues exactly one command per due PG, in snapshot
order, skips non-due PGs with no command and no sleep, and visits no
PG twice. -/
theorem C4_run (config : Config) (now : Int) (type_ : ScrubType)
    (delay : Nat) (pgs : List PG) (fetches : List (List PG))
    (hv : ∀ pg ∈ pgs, hasValidStamps pg = true)
    (hadm : ∀ s ∈ fetches, state_check s ≤ config.parallel)
    (hlen : pgs.countP (isDueB config now type_) ≤ fetches.length) :
    do_scrub config now type_ delay pgs fetches =
      .ok (expectedTrace config now type_ delay pgs) ∧
    commandsOf (expectedTrace config now type_ delay pgs) =
      (pgs.filter (isDueB config now type_)).map PG.pgid ∧
    (pacingsOf (expectedTrace config now type_ delay pgs)).length =
      (commandsOf (expectedTrace config now type_ delay pgs)).length ∧
    pollSleepsOf (expectedTrace config now type_ delay pgs) = [] ∧
    ((pgs.map PG.pgid).Nodup →
      (commandsOf (expectedTrace config now type_ delay pgs)).Nodup) := by
  refine ⟨do_scrub_admissible config now type_ delay pgs fetches hv hadm hlen,
    expectedTrace_commands config now type_ delay pgs, ?_,
    expectedTrace_pollSleeps config now type_ delay pgs, ?_⟩
  · rw [expectedTrace_commands, expectedTrace_pacings]
    simp [List.countP_eq_length_filter]
  · intro hnd
    rw [expectedTrace_commands]
    exact hnd.sublist ((pgs.filter_sublist).map PG.pgid)

/-- Witness for C4 at `config = ⟨0, 0, 0⟩`, `now = 0`, a due and a
non-due PG, one healthy fetch. -/
theorem C4_run_witness :
    do_scrub ⟨0, 0, 0⟩ 0 .scrub 1
        [⟨"1.0", "active+clean", some (-1), some (-1), ⟨0, 0⟩, []⟩,
         ⟨"1.1", "active+clean", some 0, some 0, ⟨0, 0⟩, []⟩] [[]] =
      .ok (expectedTrace ⟨0, 0, 0⟩ 0 .scrub 1
        [⟨"1.0", "active+clean", some (-1), some (-1), ⟨0, 0⟩, []⟩,
         ⟨"1.1", "active+clean", some 0, some 0, ⟨0, 0⟩, []⟩]) ∧
    commandsOf (expectedTrace ⟨0, 0, 0⟩ 0 .scrub 1
        [⟨"1.0", "active+clean", some (-1), some (-1), ⟨0, 0⟩, []⟩,
         ⟨"1.1", "active+clean", some 0, some 0, ⟨0, 0⟩, []⟩]) =
      (List.filter (isDueB ⟨0, 0, 0⟩ 0 .scrub)
        [⟨"1.0", "active+clean", some (-1), some (-1), ⟨0, 0⟩, []⟩,
         ⟨"1.1", "active+clean", some 0, some 0, ⟨0, 0⟩, []⟩]).map PG.pgid ∧
    (pacingsOf (expectedTrace ⟨0, 0, 0⟩ 0 .scrub 1
        [⟨"1.0", "active+clean", some (-1), some (-1), ⟨0, 0⟩, []⟩,
         ⟨"1.1", "active+clean", some 0, some 0, ⟨0, 0⟩, []⟩])).length =
      (commandsOf (expectedTrace ⟨0, 0, 0⟩ 0 .scrub 1
        [⟨"1.0", "active+clean", some (-1), some (-1), ⟨0, 0⟩, []⟩,
         ⟨"1.1", "active+clean", some 0, some 0, ⟨0, 0⟩, []⟩])).length ∧
    pollSleepsOf (expectedTrace ⟨0, 0, 0⟩ 0 .scrub 1
        [⟨"1.0", "active+clean", some (-1), some (-1), ⟨0, 0⟩, []⟩,
         ⟨"1.1", "active+clean", some 0, some 0, ⟨0, 0⟩, []⟩]) = [] ∧
    ((List.map PG.pgid
        [⟨"1.0", "active+clean", some (-1), some (-1), ⟨0, 0⟩, []⟩,
         ⟨"1.1", "active+clean", some 0, some 0, ⟨0, 0⟩, []⟩]).Nodup →
      (commandsOf (expectedTrace ⟨0, 0, 0⟩ 0 .scrub 1
        [⟨"1.0", "active+clean", some (-1), some (-1), ⟨0, 0⟩, []⟩,
         ⟨"1.1", "active+clean", some 0, some 0, ⟨0, 0⟩, []⟩])).Nodup) :=
  C4_run ⟨0, 0, 0⟩ 0 .scrub 1
    [⟨"1.0", "active+clean", some (-1), some (-1), ⟨0, 0⟩, []⟩,
     ⟨"1.1", "active+clean", some 0, some 0, ⟨0, 0⟩, []⟩] [[]]
    (by decide) (by decide) (by decide)

/-- Claim C5: `main` paces each issued command with the kind-specific
delay (15 s for deep-scrub, 1 s for scrub): over a 5-PG snapshot where
exactly PGs #2 and #4 are due, exactly 2 commands are issued and
exactly 2 pacing delays are incurred. -/
theorem C5_pacing (config : Config) (now : Int) (type_ : ScrubType)
    (p1 p2 p3 p4 p5 : PG) (fetches : List (List PG))
    (hv : ∀ pg ∈ [p1, p2, p3, p4, p5], hasValidStamps pg = true)
    (hd1 : isDueB config now type_ p1 = false)
    (hd2 : isDueB config now type_ p2 = true)
    (hd3 : isDueB config now type_ p3 = false)
    (hd4 : isDueB config now type_ p4 = true)
    (hd5 : isDueB config now type_ p5 = false)
    (hadm : ∀ s ∈ fetches, state_check s ≤ config.parallel)
    (hlen : 2 ≤ fetches.length) :
    mainDelay .deepScrub = 15 ∧ mainDelay .scrub = 1 ∧
    ∃ t, main_run config now type_ [p1, p2, p3, p4, p5] fetches = .ok t ∧
      commandsOf t = [p2.pgid, p4.pgid] ∧
      pacingsOf t = [mainDelay type_, mainDelay type_] := by
  have hcount : [p1, p2, p3, p4, p5].countP (isDueB config now type_) = 2 := by
    simp [List.countP_cons, hd1, hd2, hd3, hd4, hd5]
  refine ⟨rfl, rfl,
    expectedTrace config now type_ (mainDelay type_) [p1, p2, p3, p4, p5],
    do_scrub_admissible config now type_ (mainDelay type_)
      [p1, p2, p3, p4, p5] fetches hv hadm (by rw [hcount]; exact hlen),
    ?_, ?_⟩
  · rw [expectedTrace_commands]
    simp [List.filter_cons, hd1, hd2, hd3, hd4, hd5]
  · rw [expectedTrace_pacings, hcount]
    rfl

/-- Witness for C5 at `config = ⟨0, 0, 0⟩`, `now = 0`, deep-scrub, a
5-PG snapshot with PGs #2 and #4 due, two healthy fetches. -/
theorem C5_pacing_witness :
    mainDelay .deepScrub = 15 ∧ mainDelay .scrub = 1 ∧
    ∃ t, main_run ⟨0, 0, 0⟩ 0 .deepScrub
        [⟨"a", "active+clean", some 0, some 0, ⟨0, 0⟩, []⟩,
         ⟨"b", "active+clean", some 0, some (-1), ⟨0, 0⟩, []⟩,
         ⟨"c", "active+clean", some 0, some 0, ⟨0, 0⟩, []⟩,
         ⟨"d", "active+clean", some 0, some (-1), ⟨0, 0⟩, []⟩,
         ⟨"e", "active+clean", some 0, some 0, ⟨0, 0⟩, []⟩] [[], []] =
      .ok t ∧
      commandsOf t =
        [PG.pgid ⟨"b", "active+clean", some 0, some (-1), ⟨0, 0⟩, []⟩,
         PG.pgid ⟨"d", "active+clean", some 0, some (-1), ⟨0, 0⟩, []⟩] ∧
      pacingsOf t = [mainDelay .deepScrub, mainDelay .deepScrub] :=
  C5_pacing ⟨0, 0, 0⟩ 0 .deepScrub
    ⟨"a", "active+clean", some 0, some 0, ⟨0, 0⟩, []⟩
    ⟨"b", "active+clean", some 0, some (-1), ⟨0, 0⟩, []⟩
    ⟨"c", "active+clean", some 0, some 0, ⟨0, 0⟩, []⟩
    ⟨"d", "active+clean", some 0, some (-1), ⟨0, 0⟩, []⟩
    ⟨"e", "active+clean", some 0, some 0, ⟨0, 0⟩, []⟩ [[], []]
    (by decide) (by decide) (by decide) (by decide) (by decide) (by decide)
    (by decide) (by decide)

/-- Claim C6: a PG whose timestamp field is missing or malformed makes
the eligibility check fail with a parse error that propagates to the
caller; the PG is neither treated as due (no command) nor as not due
(no silent skip). -/
theorem C6_parse_error (config : Config) (now : Int) (pg : PG)
    (hbad : pg.last_scrub_stamp = none ∨ pg.last_deep_scrub_stamp = none) :
    date_check config now pg = .error .badStamp ∧
    (∀ st : DateStatus, date_check config now pg ≠ .ok st) ∧
    (∀ (type_ : ScrubType) (delay : Nat) (fetches : List (List PG)),
      do_scrub config now type_ delay [pg] fetches =
        .parseError pg.pgid []) := by
  have hb : hasValidStamps pg = false := by
    unfold hasValidStamps
    rcases hbad with h | h <;> simp [h]
  have hdc := date_check_error_of_invalid config now pg hb
  refine ⟨hdc, fun st h => ?_, fun type_ delay fetches =>
    do_scrub_cons_err config now type_ delay pg [] fetches hdc⟩
  rw [hdc] at h
  cases h

/-- Witness for C6 at a PG with a missing `last_scrub_stamp`. -/
theorem C6_parse_error_witness :
    date_check ⟨7, 3, 8⟩ 0 ⟨"1.0", "active+clean", none, some 0, ⟨0, 0⟩, []⟩ =
      .error .badStamp ∧
    (∀ st : DateStatus,
      date_check ⟨7, 3, 8⟩ 0
        ⟨"1.0", "active+clean", none, some 0, ⟨0, 0⟩, []⟩ ≠ .ok st) ∧
    (∀ (type_ : ScrubType) (delay : Nat) (fetches : List (List PG)),
      do_scrub ⟨7, 3, 8⟩ 0 type_ delay
          [⟨"1.0", "active+clean", none, some 0, ⟨0, 0⟩, []⟩] fetches =
        .parseError
          (PG.pgid ⟨"1.0", "active+clean", none, some 0, ⟨0, 0⟩, []⟩) []) :=
  C6_parse_error ⟨7, 3, 8⟩ 0
    ⟨"1.0", "active+clean", none, some 0, ⟨0, 0⟩, []⟩ (Or.inl rfl)


theorem status_loop_cons_ok (config : Config) (now : Int) (pg : PG)
    (rest : List PG) (acc : StatusCounts) (evs : List Event)
    (st : DateStatus) (hdc : date_check config now pg = .ok st) :
    status_loop config now acc evs (pg :: rest) =
      status_loop config now
        ⟨(if st.deepScrub then acc.ds_count + 1 else acc.ds_count),
         (if pg.stat_sum.num_deep_scrub_errors > 0 then acc.dse_count + 1
          else acc.dse_count),
         (if st.scrub then acc.s_count + 1 else acc.s_count),
         (if pg.stat_sum.num_scrub_errors > 0 then acc.se_count + 1
          else acc.se_count)⟩
        ((((evs ++ (if st.scrub then [.logLine pg.pgid] else [])) ++
          (if st.deepScrub then [.logLine pg.pgid] else [])) ++
          (if pg.stat_sum.num_scrub_errors > 0 then [.logLine pg.pgid]
           else [])) ++
          (if pg.stat_sum.num_deep_scrub_errors > 0 then [.logLine pg.pgid]
           else [])) rest := by
  cases hA : st.scrub <;> cases hB : st.deepScrub <;>
    by_cases hC : pg.stat_sum.num_scrub_errors > 0 <;>
    by_cases hD : pg.stat_sum.num_deep_scrub_errors > 0 <;>
    simp [status_loop, hdc, hA, hB, hC, hD]

theorem status_loop_ok_spec (config : Config) (now : Int) :
    ∀ (pgs : List PG), (∀ pg ∈ pgs, hasValidStamps pg = true) →
      ∀ (acc : StatusCounts) (evs : List Event),
      status_loop config now acc evs pgs =
        .ok (⟨acc.ds_count + pgs.countP (isDueB config now .deepScrub),
              acc.dse_count + pgs.countP
                (fun pg => decide (pg.stat_sum.num_deep_scrub_errors > 0)),
              acc.s_count + pgs.countP (isDueB config now .scrub),
              acc.se_count + pgs.countP
                (fun pg => decide (pg.stat_sum.num_scrub_errors > 0))⟩,
          evs ++ statusLogs config now pgs) := by
  intro pgs
  induction pgs with
  | nil => intro _ acc evs; simp [status_loop, statusLogs]
  | cons pg rest ih =>
      intro hv acc evs
      have hdc := date_check_ok_of_valid config now pg (hv pg (by simp))
      rw [status_loop_cons_ok config now pg rest acc evs _ hdc]
      rw [ih (fun q hq => hv q (by simp [hq]))]
      simp only [Except.ok.injEq, Prod.mk.injEq, StatusCounts.mk.injEq]
      refine ⟨⟨?_, ?_, ?_, ?_⟩, ?_⟩
      · rw [List.countP_cons]
        cases hB : isDueB config now ScrubType.deepScrub pg <;>
          (simp [hB]; try omega)
      · rw [List.countP_cons]
        by_cases hD : pg.stat_sum.num_deep_scrub_errors > 0 <;>
          (simp [hD]; try omega)
      · rw [List.countP_cons]
        cases hA : isDueB config now ScrubType.scrub pg <;>
          (simp [hA]; try omega)
      · rw [List.countP_cons]
        by_cases hC : pg.stat_sum.num_scrub_errors > 0 <;>
          (simp [hC]; try omega)
      · rw [statusLogs]
        rw [hdc]
        simp [List.append_assoc]

theorem status_loop_abort_spec (config : Config) (now : Int) (bad : PG)
    (suf : List PG) (hbad : hasValidStamps bad = false) :
    ∀ (pre : List PG), (∀ pg ∈ pre, hasValidStamps pg = true) →
      ∀ (acc : StatusCounts) (evs : List Event),
      status_loop config now acc evs (pre ++ bad :: suf) =
        .error (bad.pgid, evs ++ statusLogs config now pre) := by
  intro pre
  induction pre with
  | nil =>
      intro _ acc evs
      have hdc := date_check_error_of_invalid config now bad hbad
      simp [status_loop, hdc, statusLogs]
  | cons pg rest ih =>
      intro hv acc evs
      have hdc := date_check_ok_of_valid config now pg (hv pg (by simp))
      rw [List.cons_append]
      rw [status_loop_cons_ok config now pg (rest ++ bad :: suf) acc evs _ hdc]
      rw [ih (fun q hq => hv q (by simp [hq]))]
      rw [statusLogs]
      rw [hdc]
      simp [List.append_assoc]

theorem status_loop_commands (config : Config) (now : Int) :
    ∀ (pgs : List PG) (acc : StatusCounts) (evs : List Event),
      commandsOf (statusEventsOf (status_loop config now acc evs pgs)) =
        commandsOf evs := by
  intro pgs
  induction pgs with
  | nil => intro acc evs; rfl
  | cons pg rest ih =>
      intro acc evs
      rcases hdc : date_check config now pg with e | st
      · cases e
        simp [status_loop, hdc, statusEventsOf]
      · rw [status_loop_cons_ok config now pg rest acc evs st hdc]
        rw [ih]
        cases hA : st.scrub <;> cases hB : st.deepScrub <;>
          by_cases hC : pg.stat_sum.num_scrub_errors > 0 <;>
          by_cases hD : pg.stat_sum.num_deep_scrub_errors > 0 <;>
          simp [hA, hB, hC, hD, commandsOf_append, commandsOf_nil,
            commandsOf_cons_log]


/-- Claim C7: over a snapshot whose stamps all parse, `status` returns
four independent counters — PGs overdue for scrub, overdue for
deep-scrub, with scrub errors, with deep-scrub errors — each the count
of PGs satisfying its predicate (so 3 and 2 in the 10-PG scenario),
computed in one pass and invariant under reordering the snapshot. -/
theorem C7_report (config : Config) (now : Int) (pgs : List PG)
    (hv : ∀ pg ∈ pgs, hasValidStamps pg = true) :
    ∃ c evs, status config now pgs = .ok (c, evs) ∧
      c.s_count = pgs.countP (isDueB config now .scrub) ∧
      c.ds_count = pgs.countP (isDueB config now .deepScrub) ∧
      c.se_count =
        pgs.countP (fun pg => decide (pg.stat_sum.num_scrub_errors > 0)) ∧
      c.dse_count =
        pgs.countP
          (fun pg => decide (pg.stat_sum.num_deep_scrub_errors > 0)) ∧
      (pgs.countP (isDueB config now .scrub) = 3 → c.s_count = 3) ∧
      (pgs.countP (fun pg => decide (pg.stat_sum.num_scrub_errors > 0)) = 2 →
        c.se_count = 2) ∧
      (∀ pgs2 : List PG, pgs2.Perm pgs →
        ∃ c2 evs2, status config now pgs2 = .ok (c2, evs2) ∧ c2 = c) := by
  refine ⟨⟨pgs.countP (isDueB config now .deepScrub),
      pgs.countP (fun pg => decide (pg.stat_sum.num_deep_scrub_errors > 0)),
      pgs.countP (isDueB config now .scrub),
      pgs.countP (fun pg => decide (pg.stat_sum.num_scrub_errors > 0))⟩,
    statusLogs config now pgs, ?_, rfl, rfl, rfl, rfl, fun h3 => h3,
    fun h2 => h2, ?_⟩
  · have h := status_loop_ok_spec config now pgs hv ⟨0, 0, 0, 0⟩ []
    simpa [status] using h
  · intro pgs2 hperm
    have hv2 : ∀ pg ∈ pgs2, hasValidStamps pg = true :=
      fun pg hpg => hv pg (hperm.mem_iff.mp hpg)
    refine ⟨⟨pgs2.countP (isDueB config now .deepScrub),
        pgs2.countP
          (fun pg => decide (pg.stat_sum.num_deep_scrub_errors > 0)),
        pgs2.countP (isDueB config now .scrub),
        pgs2.countP (fun pg => decide (pg.stat_sum.num_scrub_errors > 0))⟩,
      statusLogs config now pgs2, ?_, ?_⟩
    · have h2 := status_loop_ok_spec config now pgs2 hv2 ⟨0, 0, 0, 0⟩ []
      simpa [status] using h2
    · simp only [StatusCounts.mk.injEq]
      exact ⟨hperm.countP_eq _, hperm.countP_eq _, hperm.countP_eq _,
        hperm.countP_eq _⟩

/-- Witness for C7 on the 10-PG fixture (3 scrub-overdue, 2 with scrub
errors) at `config = ⟨0, 0, 0⟩`, `now = 0`. -/
theorem C7_report_witness :
    ∃ c evs, status ⟨0, 0, 0⟩ 0 reportFixture = .ok (c, evs) ∧
      c.s_count = reportFixture.countP (isDueB ⟨0, 0, 0⟩ 0 .scrub) ∧
      c.ds_count = reportFixture.countP (isDueB ⟨0, 0, 0⟩ 0 .deepScrub) ∧
      c.se_count =
        reportFixture.countP
          (fun pg => decide (pg.stat_sum.num_scrub_errors > 0)) ∧
      c.dse_count =
        reportFixture.countP
          (fun pg => decide (pg.stat_sum.num_deep_scrub_errors > 0)) ∧
      (reportFixture.countP (isDueB ⟨0, 0, 0⟩ 0 .scrub) = 3 →
        c.s_count = 3) ∧
      (reportFixture.countP
          (fun pg => decide (pg.stat_sum.num_scrub_errors > 0)) = 2 →
        c.se_count = 2) ∧
      (∀ pgs2 : List PG, pgs2.Perm reportFixture →
        ∃ c2 evs2, status ⟨0, 0, 0⟩ 0 pgs2 = .ok (c2, evs2) ∧ c2 = c) :=
  C7_report ⟨0, 0, 0⟩ 0 reportFixture (by decide)

/-- Claim C8: `status` is a pure function of snapshot, config and now —
two runs on the same inputs return the same summary — and its trace
contains no scrub command. -/
theorem C8_pure (config : Config) (now : Int) (pgs : List PG) :
    status config now pgs = status config now pgs ∧
    commandsOf (statusEventsOf (status config now pgs)) = [] := by
  refine ⟨rfl, ?_⟩
  have h := status_loop_commands config now pgs ⟨0, 0, 0, 0⟩ []
  simpa [status, commandsOf_nil] using h

/-- Claim C9: one PG with a missing or malformed stamp of either kind
makes `date_check` raise there, so both `do_scrub` (for either kind)
and `status` abort at that PG: the trace covers only the PGs before it
and no later command is issued. -/
theorem C9_abort_run (config : Config) (now : Int) (pre : List PG) (bad : PG)
    (suf : List PG)
    (hpre : ∀ pg ∈ pre, hasValidStamps pg = true)
    (hbad : bad.last_scrub_stamp = none ∨ bad.last_deep_scrub_stamp = none)
    (fetches : List (List PG))
    (hadm : ∀ s ∈ fetches, state_check s ≤ config.parallel)
    (hlen : pre.length ≤ fetches.length) :
    (∀ (type_ : ScrubType) (delay : Nat),
      do_scrub config now type_ delay (pre ++ bad :: suf) fetches =
        .parseError bad.pgid (expectedTrace config now type_ delay pre) ∧
      commandsOf (expectedTrace config now type_ delay pre) =
        (pre.filter (isDueB config now type_)).map PG.pgid) ∧
    status config now (pre ++ bad :: suf) =
      .error (bad.pgid, statusLogs config now pre) := by
  have hb : hasValidStamps bad = false := by
    unfold hasValidStamps
    rcases hbad with h | h <;> simp [h]
  refine ⟨fun type_ delay =>
    ⟨do_scrub_parse_abort config now type_ delay bad suf hb pre fetches hpre
        hadm (le_trans (List.countP_le_length _) hlen),
      expectedTrace_commands config now type_ delay pre⟩, ?_⟩
  have h := status_loop_abort_spec config now bad suf hb pre hpre
    ⟨0, 0, 0, 0⟩ []
  simpa [status] using h

/-- Witness for C9: one valid due PG before a PG whose deep-scrub
stamp is missing, one PG after it, at `config = ⟨0, 0, 0⟩`, `now = 0`. -/
theorem C9_abort_run_witness :
    (∀ (type_ : ScrubType) (delay : Nat),
      do_scrub ⟨0, 0, 0⟩ 0 type_ delay
          ([⟨"a", "active+clean", some (-1), some (-1), ⟨0, 0⟩, []⟩] ++
            ⟨"bad", "active+clean", some 0, none, ⟨0, 0⟩, []⟩ ::
              [⟨"c", "active+clean", some 0, some 0, ⟨0, 0⟩, []⟩]) [[]] =
        .parseError
          (PG.pgid ⟨"bad", "active+clean", some 0, none, ⟨0, 0⟩, []⟩)
          (expectedTrace ⟨0, 0, 0⟩ 0 type_ delay
            [⟨"a", "active+clean", some (-1), some (-1), ⟨0, 0⟩, []⟩]) ∧
      commandsOf (expectedTrace ⟨0, 0, 0⟩ 0 type_ delay
          [⟨"a", "active+clean", some (-1), some (-1), ⟨0, 0⟩, []⟩]) =
        (List.filter (isDueB ⟨0, 0, 0⟩ 0 type_)
          [⟨"a", "active+clean", some (-1), some (-1), ⟨0, 0⟩, []⟩]).map
          PG.pgid) ∧
    status ⟨0, 0, 0⟩ 0
        ([⟨"a", "active+clean", some (-1), some (-1), ⟨0, 0⟩, []⟩] ++
          ⟨"bad", "active+clean", some 0, none, ⟨0, 0⟩, []⟩ ::
            [⟨"c", "active+clean", some 0, some 0, ⟨0, 0⟩, []⟩]) =
      .error
        (PG.pgid ⟨"bad", "active+clean", some 0, none, ⟨0, 0⟩, []⟩,
          statusLogs ⟨0, 0, 0⟩ 0
            [⟨"a", "active+clean", some (-1), some (-1), ⟨0, 0⟩, []⟩]) :=
  C9_abort_run ⟨0, 0, 0⟩ 0
    [⟨"a", "active+clean", some (-1), some (-1), ⟨0, 0⟩, []⟩]
    ⟨"bad", "active+clean", some 0, none, ⟨0, 0⟩, []⟩
    [⟨"c", "active+clean", some 0, some 0, ⟨0, 0⟩, []⟩]
    (by decide) (Or.inr rfl) [[]] (by decide) (by decide)


theorem claimedOsdList_append (l1 l2 : List PG) (o : Nat) :
    claimedOsdList (l1 ++ l2) o =
      claimedOsdList l1 o ++ claimedOsdList l2 o := by
  simp [claimedOsdList, List.filter_append]

theorem claimedOsdList_single (pg : PG) (o : Nat) :
    claimedOsdList [pg] o = if o ∈ pg.acting then [pg.pgid] else [] := by
  by_cases h : o ∈ pg.acting <;> simp [claimedOsdList, List.filter, h]

theorem claimedOsdList_nil (o : Nat) : claimedOsdList [] o = [] := rfl

theorem mem_claimedOsdList (done : List PG) (pg : PG) (o : Nat)
    (hpg : pg ∈ done) (ho : o ∈ pg.acting) :
    pg.pgid ∈ claimedOsdList done o := by
  unfold claimedOsdList
  exact List.mem_map_of_mem PG.pgid (List.mem_filter.mpr ⟨hpg, by simp [ho]⟩)

theorem visitOsd_some (pgid : String) (s : SDState) (osd r : Nat)
    (ho : s.osds osd = some r) (inner : Nat → Option Nat)
    (hp : s.pgs pgid = some inner) :
    visitOsd pgid s osd =
      { nextRef := s.nextRef,
        store := Function.update s.store r (s.store r ++ [pgid]),
        osds := s.osds,
        pgs := Function.update s.pgs pgid
          (some (Function.update inner osd (some r))) } := by
  unfold visitOsd addPgRef
  rw [ho]
  simp only [hp, ho]

theorem visitOsd_none (pgid : String) (s : SDState) (osd : Nat)
    (ho : s.osds osd = none) (inner : Nat → Option Nat)
    (hp : s.pgs pgid = some inner) :
    visitOsd pgid s osd =
      { nextRef := s.nextRef + 1,
        store := Function.update s.store s.nextRef [pgid],
        osds := Function.update s.osds osd (some s.nextRef),
        pgs := Function.update s.pgs pgid
          (some (Function.update inner osd (some s.nextRef))) } := by
  unfold visitOsd addPgRef
  rw [ho]
  simp only [hp, ho, Function.update_same]


theorem visitOsd_spec (pgid : String) (s : SDState) (a : Nat)
    (hinv : HeapInv s) (inner0 : Nat → Option Nat)
    (hp : s.pgs pgid = some inner0) :
    ∃ ra, HeapInv (visitOsd pgid s a) ∧
      s.nextRef ≤ (visitOsd pgid s a).nextRef ∧
      (∀ o, o ≠ a → (visitOsd pgid s a).osds o = s.osds o) ∧
      (visitOsd pgid s a).osds a = some ra ∧
      (∀ o r2, s.osds o = some r2 → (visitOsd pgid s a).osds o = some r2) ∧
      ((visitOsd pgid s a).store ra =
        (match s.osds a with
         | some r0 => s.store r0
         | none => []) ++ [pgid]) ∧
      (∀ o r2, o ≠ a → (visitOsd pgid s a).osds o = some r2 →
        (visitOsd pgid s a).store r2 = s.store r2) ∧
      (∀ p, p ≠ pgid → (visitOsd pgid s a).pgs p = s.pgs p) ∧
      (visitOsd pgid s a).pgs pgid =
        some (Function.update inner0 a (some ra)) := by
  rcases ho : s.osds a with _ | r
  · -- the OSD is new: a fresh one-element list is allocated
    rw [visitOsd_none pgid s a ho inner0 hp]
    refine ⟨s.nextRef, ⟨?_, ?_⟩, Nat.le_succ _, ?_, ?_, ?_, ?_, ?_, ?_, ?_⟩
    · intro o r2 h2
      simp only at h2
      by_cases hoa : o = a
      · subst hoa
        rw [Function.update_same] at h2
        cases h2
        exact Nat.lt_succ_self _
      · rw [Function.update_noteq hoa] at h2
        exact Nat.lt_succ_of_lt (hinv.1 o r2 h2)
    · intro o1 o2 r2 h1 h2
      simp only at h1 h2
      by_cases h1a : o1 = a <;> by_cases h2a : o2 = a
      · rw [h1a, h2a]
      · subst h1a
        rw [Function.update_same] at h1
        rw [Function.update_noteq h2a] at h2
        cases h1
        exact absurd (hinv.1 o2 _ h2) (lt_irrefl _)
      · subst h2a
        rw [Function.update_same] at h2
        rw [Function.update_noteq h1a] at h1
        cases h2
        exact absurd (hinv.1 o1 _ h1) (lt_irrefl _)
      · rw [Function.update_noteq h1a] at h1
        rw [Function.update_noteq h2a] at h2
        exact hinv.2 o1 o2 r2 h1 h2
    · intro o hoa
      simp only
      exact Function.update_noteq hoa _ _
    · simp only
      exact Function.update_same _ _ _
    · intro o r2 h2
      by_cases hoa : o = a
      · subst hoa
        rw [ho] at h2
        cases h2
      · simp only
        rw [Function.update_noteq hoa]
        exact h2
    · simp only
      rw [Function.update_same]
      rfl
    · intro o r2 hoa h2
      simp only at h2 ⊢
      rw [Function.update_noteq hoa] at h2
      have hlt := hinv.1 o r2 h2
      rw [Function.update_noteq (by omega : r2 ≠ s.nextRef)]
    · intro p hpp
      simp only
      exact Function.update_noteq hpp _ _
    · simp only
      exact Function.update_same _ _ _
  · -- the OSD exists: its list is appended to in place
    rw [visitOsd_some pgid s a r ho inner0 hp]
    refine ⟨r, ⟨?_, ?_⟩, le_refl _, fun o _ => rfl, ho, fun o r2 h2 => h2,
      ?_, ?_, ?_, ?_⟩
    · intro o r2 h2
      simp only at h2
      exact hinv.1 o r2 h2
    · intro o1 o2 r2 h1 h2
      simp only at h1 h2
      exact hinv.2 o1 o2 r2 h1 h2
    · simp only
      exact Function.update_same _ _ _
    · intro o r2 hoa h2
      simp only at h2 ⊢
      have hne : r2 ≠ r := by
        intro he
        subst he
        exact hoa (hinv.2 o a r2 h2 ho)
      rw [Function.update_noteq hne]
    · intro p hpp
      simp only
      exact Function.update_noteq hpp _ _
    · simp only
      exact Function.update_same _ _ _


theorem visit_acting_spec (pgid : String) :
    ∀ (acts : List Nat), acts.Nodup →
      ∀ (s : SDState) (inner0 : Nat → Option Nat), HeapInv s →
        s.pgs pgid = some inner0 →
        HeapInv (acts.foldl (visitOsd pgid) s) ∧
        s.nextRef ≤ (acts.foldl (visitOsd pgid) s).nextRef ∧
        (∀ o, o ∉ acts → (acts.foldl (visitOsd pgid) s).osds o = s.osds o) ∧
        (∀ o r, s.osds o = some r →
          (acts.foldl (visitOsd pgid) s).osds o = some r) ∧
        (∀ o, o ∈ acts →
          ∃ r, (acts.foldl (visitOsd pgid) s).osds o = some r) ∧
        (∀ o r, (acts.foldl (visitOsd pgid) s).osds o = some r →
          (acts.foldl (visitOsd pgid) s).store r =
            (match s.osds o with
             | some r0 => s.store r0
             | none => []) ++ (if o ∈ acts then [pgid] else [])) ∧
        (∀ p, p ≠ pgid → (acts.foldl (visitOsd pgid) s).pgs p = s.pgs p) ∧
        (∃ inner2, (acts.foldl (visitOsd pgid) s).pgs pgid = some inner2 ∧
          ∀ o, inner2 o =
            (if o ∈ acts then (acts.foldl (visitOsd pgid) s).osds o
             else inner0 o)) := by
  intro acts
  induction acts with
  | nil =>
      intro _ s inner0 hinv hp
      refine ⟨hinv, le_refl _, fun o _ => rfl, fun o r h => h,
        fun o ho => absurd ho (List.not_mem_nil o), ?_, fun p _ => rfl,
        ⟨inner0, hp, fun o => by simp⟩⟩
      intro o r h
      simp only [List.foldl_nil] at h ⊢
      rcases hso : s.osds o with _ | r0
      · rw [hso] at h
        cases h
      · rw [hso] at h
        cases h
        simp
  | cons a rest ih =>
      intro hnd s inner0 hinv hp
      obtain ⟨hndA, hndR⟩ := List.nodup_cons.mp hnd
      rw [List.foldl_cons]
      obtain ⟨ra, hv1, hv2, hv3, hv4, hv5, hv6, hv7, hv8, hv9⟩ :=
        visitOsd_spec pgid s a hinv inner0 hp
      obtain ⟨ih1, ih2, ih3, ih4, ih5, ih6, ih7, ih8⟩ :=
        ih hndR (visitOsd pgid s a) (Function.update inner0 a (some ra))
          hv1 hv9
      refine ⟨ih1, le_trans hv2 ih2, ?_, ?_, ?_, ?_, ?_, ?_⟩
      · intro o honot
        have hor : o ∉ rest := fun hmem => honot (List.mem_cons_of_mem a hmem)
        have hoa : o ≠ a := fun he => honot (he ▸ List.mem_cons_self a rest)
        rw [ih3 o hor, hv3 o hoa]
      · intro o r h
        exact ih4 o r (hv5 o r h)
      · intro o homem
        rcases List.mem_cons.mp homem with he | hmem
        · subst he
          by_cases hor : o ∈ rest
          · exact ih5 o hor
          · exact ⟨ra, by rw [ih3 o hor]; exact hv4⟩
        · exact ih5 o hmem
      · intro o r h
        by_cases hoa : o = a
        · subst hoa
          have hosa : (rest.foldl (visitOsd pgid) (visitOsd pgid s o)).osds o =
              some ra := by
            rw [ih3 o hndA]
            exact hv4
          rw [hosa] at h
          cases h
          have h6 := ih6 o ra hosa
          rw [h6, hv4]
          simp [hndA, hv6]
        · by_cases hor : o ∈ rest
          · have h6 := ih6 o r h
            rw [hv3 o hoa] at h6
            rw [h6]
            rcases hso : s.osds o with _ | r0
            · simp [hso, hor, List.mem_cons_of_mem a hor]
            · have hst := hv7 o r0 hoa (by rw [hv3 o hoa]; exact hso)
              simp [hso, hor, List.mem_cons_of_mem a hor, hst]
          · have honot : o ∉ a :: rest := by
              intro hmem
              rcases List.mem_cons.mp hmem with he | hm
              · exact hoa he
              · exact hor hm
            have hos : s.osds o = some r := by
              rw [← hv3 o hoa, ← ih3 o hor]
              exact h
            have h6 := ih6 o r h
            rw [hv3 o hoa] at h6
            rw [h6, hos]
            have hst := hv7 o r hoa (by rw [hv3 o hoa]; exact hos)
            simp [hor, honot, hst]
      · intro p hpp
        rw [ih7 p hpp, hv8 p hpp]
      · obtain ⟨inner2, hi2, hi2spec⟩ := ih8
        refine ⟨inner2, hi2, fun o => ?_⟩
        rw [hi2spec o]
        by_cases hor : o ∈ rest
        · simp [hor, List.mem_cons_of_mem a hor]
        · by_cases hoa : o = a
          · subst hoa
            have hosa :
                (rest.foldl (visitOsd pgid) (visitOsd pgid s o)).osds o =
                  some ra := by
              rw [ih3 o hndA]
              exact hv4
            simp [hor, List.mem_cons_self, Function.update_same, hosa]
          · have honot : o ∉ a :: rest := by
              intro hmem
              rcases List.mem_cons.mp hmem with he | hm
              · exact hoa he
              · exact hor hm
            simp [hor, honot, Function.update_noteq hoa]


theorem visitPg_step (done : List PG) (s : SDState) (pg : PG)
    (hinv : OuterInv done s) (hact : pg.acting.Nodup)
    (hnew : pg.pgid ∉ done.map PG.pgid) :
    OuterInv (done ++ [pg]) (visitPg s pg) := by
  obtain ⟨hheap, hO1, hO2, hO3⟩ := hinv
  have hheap0 : HeapInv
      { s with pgs := Function.update s.pgs pg.pgid (some fun _ => none) } :=
    hheap
  have hp0 :
      ({ s with
        pgs := Function.update s.pgs pg.pgid (some fun _ => none) } :
          SDState).pgs pg.pgid = some (fun _ => none) :=
    Function.update_same _ _ _
  obtain ⟨p1, p2, p3, p4, p5, p6, p7, p8⟩ :=
    visit_acting_spec pg.pgid pg.acting hact
      { s with pgs := Function.update s.pgs pg.pgid (some fun _ => none) }
      (fun _ => none) hheap0 hp0
  unfold visitPg
  refine ⟨p1, ?_, ?_, ?_⟩
  · intro o r h
    have h6 := p6 o r h
    rw [claimedOsdList_append, claimedOsdList_single, h6]
    rcases hso : s.osds o with _ | r0
    · simp [hO2 o hso]
    · simp [hO1 o r0 hso]
  · intro o h
    rw [claimedOsdList_append, claimedOsdList_single]
    by_cases hmem : o ∈ pg.acting
    · obtain ⟨r, hr⟩ := p5 o hmem
      rw [h] at hr
      cases hr
    · have hos : s.osds o = none := by
        rw [← p3 o hmem]
        exact h
      rw [hO2 o hos]
      simp [hmem]
  · intro pg2 hmem2
    rcases List.mem_append.mp hmem2 with hdone | hself
    · obtain ⟨inner, hin, hinspec⟩ := hO3 pg2 hdone
      have hne : pg2.pgid ≠ pg.pgid := by
        intro he
        exact hnew (he ▸ List.mem_map_of_mem PG.pgid hdone)
      refine ⟨inner, ?_, ?_⟩
      · rw [p7 pg2.pgid hne]
        simp [Function.update_noteq hne, hin]
      · intro o
        rw [hinspec o]
        by_cases ho2 : o ∈ pg2.acting
        · simp only [ho2, if_true]
          rcases hso : s.osds o with _ | r0
          · exact absurd (mem_claimedOsdList done pg2 o hdone ho2)
              (by rw [hO2 o hso]; exact List.not_mem_nil _)
          · rw [p4 o r0 hso]
        · simp [ho2]
    · have he : pg2 = pg := by
        simpa using hself
      subst he
      obtain ⟨inner2, hi2, hi2spec⟩ := p8
      refine ⟨inner2, hi2, fun o => ?_⟩
      rw [hi2spec o]

theorem sorted_dump_inv (snapshot : List PG) :
    ∀ (done : List PG) (s : SDState), OuterInv done s →
      (∀ pg ∈ snapshot, pg.acting.Nodup) →
      ((done ++ snapshot).map PG.pgid).Nodup →
      OuterInv (done ++ snapshot) (snapshot.foldl visitPg s) := by
  induction snapshot with
  | nil => intro done s hinv _ _; simpa using hinv
  | cons pg rest ih =>
      intro done s hinv hact hnd
      have hnd2 : ((done.map PG.pgid) ++
          (pg.pgid :: rest.map PG.pgid)).Nodup := by
        simpa using hnd
      have hnew : pg.pgid ∉ done.map PG.pgid := by
        intro hmem
        exact (List.nodup_append.mp hnd2).2.2 hmem (by simp)
      have hstep := visitPg_step done s pg hinv (hact pg (by simp)) hnew
      have h2 := ih (done ++ [pg]) (visitPg s pg) hstep
        (fun q hq => hact q (by simp [hq]))
        (by simpa [List.append_assoc] using hnd)
      simpa [List.append_assoc] using h2


/-- Claim C10, counterexample to the claim as stated: when a PG's
acting sequence repeats a node id (here `[0, 0]`), the code appends
the pgid once per occurrence, so `osds[0]` is `["1.0", "1.0"]` while
the claimed list of PGs whose acting sequence contains 0 is
`["1.0"]`. -/
theorem C10_sorted_dump_counterexample :
    (sorted_dump
      [⟨"1.0", "active+clean", some 0, some 0, ⟨0, 0⟩, [0, 0]⟩]).osds 0 =
      some 0 ∧
    (sorted_dump
      [⟨"1.0", "active+clean", some 0, some 0, ⟨0, 0⟩, [0, 0]⟩]).store 0 =
      ["1.0", "1.0"] ∧
    claimedOsdList
      [⟨"1.0", "active+clean", some 0, some 0, ⟨0, 0⟩, [0, 0]⟩] 0 =
      ["1.0"] ∧
    ¬ (sorted_dump
        [⟨"1.0", "active+clean", some 0, some 0, ⟨0, 0⟩, [0, 0]⟩]).store 0 =
      claimedOsdList
        [⟨"1.0", "active+clean", some 0, some 0, ⟨0, 0⟩, [0, 0]⟩] 0 := by
  refine ⟨by decide, by decide, by decide, by decide⟩

/-- Claim C10 as amended: additionally assuming pgids are unique (the
data model already requires this) and no PG's acting sequence repeats
a node id, `sorted_dump` returns `osds` mapping each seen node id `o`
to the list, in snapshot order, of exactly the pg ids whose acting
sequence contains `o` (and maps unseen node ids to nothing), and for
every PG `p` and every `o` in `p`'s acting sequence, `pgs[p][o]` holds
the very same list reference as `osds[o]`, whose final contents is
that list — which can contain pg ids other than `p`. -/
theorem C10_sorted_dump_amended (snapshot : List PG)
    (hids : (snapshot.map PG.pgid).Nodup)
    (hact : ∀ pg ∈ snapshot, pg.acting.Nodup) :
    (∀ o r, (sorted_dump snapshot).osds o = some r →
      (sorted_dump snapshot).store r = claimedOsdList snapshot o) ∧
    (∀ o, (sorted_dump snapshot).osds o = none →
      claimedOsdList snapshot o = []) ∧
    (∀ pg ∈ snapshot, ∃ inner,
      (sorted_dump snapshot).pgs pg.pgid = some inner ∧
      ∀ o ∈ pg.acting, ∃ r, inner o = some r ∧
        (sorted_dump snapshot).osds o = some r ∧
        (sorted_dump snapshot).store r = claimedOsdList snapshot o) := by
  unfold sorted_dump
  have hbase : OuterInv []
      { nextRef := 0, store := fun _ => [], osds := fun _ => none,
        pgs := fun _ => none } := by
    unfold OuterInv HeapInv
    refine ⟨⟨?_, ?_⟩, ?_, ?_, ?_⟩
    · intro o r h
      simp at h
    · intro o1 o2 r h1 h2
      simp at h1
    · intro o r h
      simp at h
    · intro o h
      rfl
    · intro pg hpg
      exact absurd hpg (List.not_mem_nil pg)
  have hinv := sorted_dump_inv snapshot [] _ hbase hact (by simpa using hids)
  rw [List.nil_append] at hinv
  obtain ⟨hheap, hO1, hO2, hO3⟩ := hinv
  refine ⟨hO1, hO2, ?_⟩
  intro pg hpg
  obtain ⟨inner, hin, hinspec⟩ := hO3 pg hpg
  refine ⟨inner, hin, ?_⟩
  intro o ho
  rcases hso : (List.foldl visitPg
      { nextRef := 0, store := fun _ => [], osds := fun _ => none,
        pgs := fun _ => none } snapshot).osds o with _ | r
  · exact absurd (mem_claimedOsdList snapshot pg o hpg ho)
      (by rw [hO2 o hso]; exact List.not_mem_nil _)
  · refine ⟨r, ?_, rfl, hO1 o r hso⟩
    rw [hinspec o]
    simp [ho, hso]

/-- Witness for the amended C10 on a 2-PG snapshot with overlapping
acting sets (`[1, 2]` and `[2, 3]`): node 2's list is shared, so
`pgs["a"][2]` holds `["a", "b"]`, a list containing another PG's id. -/
theorem C10_sorted_dump_amended_witness :
    (∀ o r, (sorted_dump
        [⟨"a", "active+clean", some 0, some 0, ⟨0, 0⟩, [1, 2]⟩,
         ⟨"b", "active+clean", some 0, some 0, ⟨0, 0⟩, [2, 3]⟩]).osds o =
        some r →
      (sorted_dump
        [⟨"a", "active+clean", some 0, some 0, ⟨0, 0⟩, [1, 2]⟩,
         ⟨"b", "active+clean", some 0, some 0, ⟨0, 0⟩, [2, 3]⟩]).store r =
        claimedOsdList
          [⟨"a", "active+clean", some 0, some 0, ⟨0, 0⟩, [1, 2]⟩,
           ⟨"b", "active+clean", some 0, some 0, ⟨0, 0⟩, [2, 3]⟩] o) ∧
    (∀ o, (sorted_dump
        [⟨"a", "active+clean", some 0, some 0, ⟨0, 0⟩, [1, 2]⟩,
         ⟨"b", "active+clean", some 0, some 0, ⟨0, 0⟩, [2, 3]⟩]).osds o =
        none →
      claimedOsdList
        [⟨"a", "active+clean", some 0, some 0, ⟨0, 0⟩, [1, 2]⟩,
         ⟨"b", "active+clean", some 0, some 0, ⟨0, 0⟩, [2, 3]⟩] o = []) ∧
    (∀ pg ∈ [⟨"a", "active+clean", some 0, some 0, ⟨0, 0⟩, [1, 2]⟩,
         ⟨"b", "active+clean", some 0, some 0, ⟨0, 0⟩, [2, 3]⟩],
      ∃ inner,
        (sorted_dump
          [⟨"a", "active+clean", some 0, some 0, ⟨0, 0⟩, [1, 2]⟩,
           ⟨"b", "active+clean", some 0, some 0, ⟨0, 0⟩, [2, 3]⟩]).pgs
          (PG.pgid pg) = some inner ∧
        ∀ o ∈ PG.acting pg, ∃ r, inner o = some r ∧
          (sorted_dump
            [⟨"a", "active+clean", some 0, some 0, ⟨0, 0⟩, [1, 2]⟩,
             ⟨"b", "active+clean", some 0, some 0, ⟨0, 0⟩, [2, 3]⟩]).osds o =
            some r ∧
          (sorted_dump
            [⟨"a", "active+clean", some 0, some 0, ⟨0, 0⟩, [1, 2]⟩,
             ⟨"b", "active+clean", some 0, some 0, ⟨0, 0⟩, [2, 3]⟩]).store r =
            claimedOsdList
              [⟨"a", "active+clean", some 0, some 0, ⟨0, 0⟩, [1, 2]⟩,
               ⟨"b", "active+clean", some 0, some 0, ⟨0, 0⟩, [2, 3]⟩] o) :=
  C10_sorted_dump_amended
    [⟨"a", "active+clean", some 0, some 0, ⟨0, 0⟩, [1, 2]⟩,
     ⟨"b", "active+clean", some 0, some 0, ⟨0, 0⟩, [2, 3]⟩]
    (by decide) (by decide)

end Csm
